import Mathlib

/-!
Verification of the `catalysis` Home Assistant integration (Petivity pet
monitoring).  The Python sources under `custom_components/catalysis/` are
shallowly embedded: JSON values are a `Json` inductive, Python `dict.get`,
iteration, indexing and arithmetic become total Lean functions returning
`Except PyErr _` (an uncaught Python exception is an `Except.error`), and the
coordinator/sensor/config-flow logic is translated function by function.
-/

mutual
/-- JSON values as produced by `json.loads`: `null` maps to Python `None`.
The mutual encoding of arrays and objects keeps all recursion structural. -/
inductive Json where
  | null
  | bool (b : Bool)
  | num (q : ℚ)
  | str (s : String)
  | arr (xs : JsonList)
  | obj (kvs : JsonObj)

inductive JsonList where
  | nil
  | cons (hd : Json) (tl : JsonList)

inductive JsonObj where
  | nil
  | cons (k : String) (v : Json) (tl : JsonObj)
end

mutual
/-- Structural equality of JSON values (Python `==` on parsed JSON trees). -/
def Json.beq : Json → Json → Bool
  | .null, .null => true
  | .bool a, .bool b => decide (a = b)
  | .num a, .num b => decide (a = b)
  | .str a, .str b => decide (a = b)
  | .arr xs, .arr ys => JsonList.beq xs ys
  | .obj xs, .obj ys => JsonObj.beq xs ys
  | _, _ => false

def JsonList.beq : JsonList → JsonList → Bool
  | .nil, .nil => true
  | .cons a as, .cons b bs => a.beq b && JsonList.beq as bs
  | _, _ => false

def JsonObj.beq : JsonObj → JsonObj → Bool
  | .nil, .nil => true
  | .cons k v rest, .cons k' v' rest' => decide (k = k') && v.beq v' && JsonObj.beq rest rest'
  | _, _ => false
end

/-- Conversions between the mutual list encodings and ordinary lists. -/
def JsonList.toList : JsonList → List Json
  | .nil => []
  | .cons a as => a :: as.toList

def JsonList.ofList : List Json → JsonList
  | [] => .nil
  | a :: as => .cons a (JsonList.ofList as)

def JsonObj.ofList : List (String × Json) → JsonObj
  | [] => .nil
  | kv :: rest => .cons kv.1 kv.2 (JsonObj.ofList rest)

/-- First value stored under a key (parsed Python dicts have unique keys). -/
def JsonObj.find : JsonObj → String → Option Json
  | .nil, _ => none
  | .cons k v rest, key => if k = key then some v else JsonObj.find rest key

def JsonObj.keys : JsonObj → List String
  | .nil => []
  | .cons k _ rest => k :: JsonObj.keys rest

def JsonList.isNil : JsonList → Bool
  | .nil => true
  | .cons _ _ => false

def JsonObj.isNil : JsonObj → Bool
  | .nil => true
  | .cons _ _ _ => false

/-- Python truthiness of a JSON value (`if value:`). -/
def Json.truthy : Json → Bool
  | .null => false
  | .bool b => b
  | .num q => decide (q ≠ 0)
  | .str s => decide (s ≠ "")
  | .arr xs => !xs.isNil
  | .obj kvs => !kvs.isNil

/-- Shorthand constructors for concrete JSON values. -/
def Json.jarr (l : List Json) : Json := .arr (JsonList.ofList l)

def Json.jobj (l : List (String × Json)) : Json := .obj (JsonObj.ofList l)

/-- Python exception classes relevant to the integration's `except` clauses. -/
inductive PyErr where
  | keyError
  | typeError
  | attributeError
  | indexError
deriving DecidableEq

/-- Python `value.get(key, default)`: on a dict returns the stored value or
the default; on any non-dict value raises `AttributeError`. -/
def Json.pyGet (j : Json) (key : String) (dflt : Json) : Except PyErr Json :=
  match j with
  | .obj kvs => .ok ((kvs.find key).getD dflt)
  | _ => .error .attributeError

/-- Python `for x in value`: lists yield elements, strings yield one-character
strings, dicts yield their keys; other values raise `TypeError`. -/
def Json.pyIter (j : Json) : Except PyErr (List Json) :=
  match j with
  | .arr xs => .ok xs.toList
  | .str s => .ok (s.toList.map fun c => Json.str (String.mk [c]))
  | .obj kvs => .ok (kvs.keys.map Json.str)
  | _ => .error .typeError

/-- Python `value[-1]`: last element of a list or string (`IndexError` when
empty), `KeyError` on a dict (JSON objects have no `-1` key), `TypeError`
on non-subscriptable values. -/
def Json.pyLast (j : Json) : Except PyErr Json :=
  match j with
  | .arr xs =>
      match xs.toList.getLast? with
      | some v => .ok v
      | none => .error .indexError
  | .str s =>
      match s.toList.getLast? with
      | some c => .ok (Json.str (String.mk [c]))
      | none => .error .indexError
  | .obj _ => .error .keyError
  | _ => .error .typeError

/-- Python `value * c` for a rational constant `c`: numbers multiply, booleans
coerce to 0/1, everything else raises `TypeError`. -/
def Json.pyMulConst (j : Json) (c : ℚ) : Except PyErr ℚ :=
  match j with
  | .num q => .ok (q * c)
  | .bool b => .ok ((if b then (1 : ℚ) else 0) * c)
  | _ => .error .typeError

/-! Status coordinator (`coordinator.py`, `PetivityStatusCoordinator`). -/

/-- Cat dict built by `get_cats` (coordinator.py lines 170-178). -/
structure CatRec where
  id : Json
  name : Json
  most_recent_event : Json
  last_activated : Json
  cat_not_seen_warning : Json

/-- Body of one iteration of the `get_cats` loop: build the per-cat dict
(coordinator.py lines 170-178).  Any uncaught Python exception is an error. -/
def mkCat (cat : Json) : Except PyErr CatRec := do
  let activityState ← cat.pyGet "activityState" (Json.obj .nil)
  let catId ← cat.pyGet "id" Json.null
  let catName ← cat.pyGet "name" Json.null
  let mre ← activityState.pyGet "mostRecentEvent" Json.null
  let la ← activityState.pyGet "lastActivated" Json.null
  let warn ← activityState.pyGet "catNotSeenWarning" (Json.bool false)
  pure ⟨catId, catName, mre, la, warn⟩

/-- The `for cat in cats_data` loop of `get_cats`: returns the cats appended
so far together with the first uncaught exception, if any (the Python `cats`
list keeps its contents when an exception escapes the loop). -/
def loopCats : List Json → List CatRec → List CatRec × Option PyErr
  | [], acc => (acc, none)
  | j :: rest, acc =>
      match mkCat j with
      | .ok c => loopCats rest (acc ++ [c])
      | .error e => (acc, some e)

/-- The nested access `self.data.get("data", {}).get("authenticate", {})
.get("myHousehold", {}).get("cats", [])` (coordinator.py line 168). -/
def catsChain (data : Json) : Except PyErr Json := do
  let d1 ← data.pyGet "data" (Json.obj .nil)
  let d2 ← d1.pyGet "authenticate" (Json.obj .nil)
  let d3 ← d2.pyGet "myHousehold" (Json.obj .nil)
  d3.pyGet "cats" (Json.jarr [])

/-- The `try` body of `get_cats`, with the partially built list preserved. -/
def getCatsRaw (data : Json) : List CatRec × Option PyErr :=
  match catsChain data with
  | .error e => ([], some e)
  | .ok catsData =>
      match catsData.pyIter with
      | .error e => ([], some e)
      | .ok items => loopCats items []

/-- Exceptions caught by `except (KeyError, TypeError)` in `get_cats` and
`get_machines` (coordinator.py lines 179 and 245). -/
def PyErr.caughtKT : PyErr → Bool
  | .keyError => true
  | .typeError => true
  | _ => false

/-- Exceptions caught by `except (KeyError, TypeError, IndexError)` in
`_extract_current_weight` (coordinator.py line 339). -/
def PyErr.caughtKTI : PyErr → Bool
  | .keyError => true
  | .typeError => true
  | .indexError => true
  | _ => false

/-- `PetivityStatusCoordinator.get_cats` (coordinator.py lines 158-182):
empty list on falsy data, `except (KeyError, TypeError)` returns the cats
collected so far, any other exception propagates to the caller. -/
def getCats (data : Json) : Except PyErr (List CatRec) :=
  if data.truthy then
    match getCatsRaw data with
    | (cats, none) => .ok cats
    | (cats, some e) => if e.caughtKT then .ok cats else .error e
  else .ok []

/-- Processed elimination event dict (coordinator.py lines 210-214). -/
structure PEvent where
  start_time : Json
  elimination_type : Json
  cat_id : Json

/-- The `event_counts` dict: insertion-ordered, keyed by `elim_type`. -/
def CountMap := List (Json × Nat)

/-- `event_counts = {"urination": 0, "defecation": 0, "combo": 0,
"unknown": 0}` (coordinator.py line 202). -/
def initCounts : CountMap :=
  [(Json.str "urination", 0), (Json.str "defecation", 0),
   (Json.str "combo", 0), (Json.str "unknown", 0)]

/-- `event_counts[elim_type] = event_counts.get(elim_type, 0) + 1`
(coordinator.py line 218): update in place or append a fresh key. -/
def bump : CountMap → Json → CountMap
  | [], k => [(k, 1)]
  | (k', v) :: rest, k =>
      if k.beq k' then (k', v + 1) :: rest else (k', v) :: bump rest k

/-- The `for event in elimination_events` loop (coordinator.py lines
204-218): filter events whose classification has truthy `isCat` and
`isElimination` (with Python short-circuit `and`), build processed dicts
and count by type. -/
def processEvents : List Json → List PEvent → CountMap →
    Except PyErr (List PEvent × CountMap)
  | [], acc, counts => .ok (acc, counts)
  | ev :: rest, acc, counts => do
      let cls ← ev.pyGet "normalisedClassification" (Json.obj .nil)
      let isCat ← cls.pyGet "isCat" Json.null
      if isCat.truthy then
        let isElim ← cls.pyGet "isElimination" Json.null
        if isElim.truthy then
          let elimType ← cls.pyGet "elimType" (Json.str "unknown")
          let catInfo ← cls.pyGet "cat" (Json.obj .nil)
          let startTime ← ev.pyGet "startTime" Json.null
          let catId ← catInfo.pyGet "id" Json.null
          processEvents rest (acc ++ [⟨startTime, elimType, catId⟩]) (bump counts elimType)
        else processEvents rest acc counts
      else processEvents rest acc counts

/-- Machine dict built by `get_machines` (coordinator.py lines 223-244). -/
structure MachineRec where
  id : Json
  name : Json
  battery_percentage : Json
  show_battery_warning : Json
  wifi_rssi : Json
  power_mode : Json
  is_frozen : Json
  most_recent_upload : Json
  upload_warning : Json
  is_dirty : Json
  balanced_status : Json
  recent_events : List PEvent
  recent_event_count : Nat
  event_counts : CountMap
  most_recent_event : Option PEvent
  last_event_time : Json
  last_event_type : Json
  last_event_cat_id : Json

/-- Body of one iteration of the `get_machines` loop (coordinator.py lines
196-244): process the machine's elimination events and build the dict.
`id` reuses the `name` field with default `"unknown"` (line 224), and the
`last_event_*` fields read the first processed event, `None` when there is
none (lines 241-243). -/
def mkMachine (machine : Json) : Except PyErr MachineRec := do
  let elimEvents ← machine.pyGet "eliminationEvents" (Json.jarr [])
  let items ← elimEvents.pyIter
  let (processed, counts) ← processEvents items [] initCounts
  let mre := processed.head?
  let mId ← machine.pyGet "name" (Json.str "unknown")
  let mName ← machine.pyGet "name" Json.null
  let bp ← machine.pyGet "batteryPercentage" Json.null
  let sbw ← machine.pyGet "showBatteryWarning" (Json.bool false)
  let rssi ← machine.pyGet "wifiRssi" Json.null
  let pm ← machine.pyGet "powerMode" Json.null
  let fz ← machine.pyGet "isFrozen" (Json.bool false)
  let mru ← machine.pyGet "mostRecentUploadAt" Json.null
  let uw ← machine.pyGet "mostRecentUploadWarning" (Json.bool false)
  let dirty ← machine.pyGet "isDirty" (Json.bool false)
  let bs ← machine.pyGet "balancedStatus" Json.null
  pure { id := mId, name := mName, battery_percentage := bp,
         show_battery_warning := sbw, wifi_rssi := rssi, power_mode := pm,
         is_frozen := fz, most_recent_upload := mru, upload_warning := uw,
         is_dirty := dirty, balanced_status := bs,
         recent_events := processed, recent_event_count := processed.length,
         event_counts := counts, most_recent_event := mre,
         last_event_time := (match mre with | some pe => pe.start_time | none => Json.null),
         last_event_type := (match mre with | some pe => pe.elimination_type | none => Json.null),
         last_event_cat_id := (match mre with | some pe => pe.cat_id | none => Json.null) }

/-- The `for machine in machines_data` loop of `get_machines`. -/
def loopMachines : List Json → List MachineRec → List MachineRec × Option PyErr
  | [], acc => (acc, none)
  | j :: rest, acc =>
      match mkMachine j with
      | .ok m => loopMachines rest (acc ++ [m])
      | .error e => (acc, some e)

/-- The nested access on line 194 of coordinator.py, ending in
`.get("machines", [])`. -/
def machinesChain (data : Json) : Except PyErr Json := do
  let d1 ← data.pyGet "data" (Json.obj .nil)
  let d2 ← d1.pyGet "authenticate" (Json.obj .nil)
  let d3 ← d2.pyGet "myHousehold" (Json.obj .nil)
  d3.pyGet "machines" (Json.jarr [])

/-- The `try` body of `get_machines`, with the partial list preserved. -/
def getMachinesRaw (data : Json) : List MachineRec × Option PyErr :=
  match machinesChain data with
  | .error e => ([], some e)
  | .ok machinesData =>
      match machinesData.pyIter with
      | .error e => ([], some e)
      | .ok items => loopMachines items []

/-- `PetivityStatusCoordinator.get_machines` (coordinator.py lines 184-248). -/
def getMachines (data : Json) : Except PyErr (List MachineRec) :=
  if data.truthy then
    match getMachinesRaw data with
    | (ms, none) => .ok ms
    | (ms, some e) => if e.caughtKT then .ok ms else .error e
  else .ok []

/-! Subprocess runner (`coordinator.py`, `_run_catalysis_command`). -/

/-- Outcome of `subprocess.run` when it completes: the exit code and the
result of `json.loads` on the captured stdout (`some j` exactly when stdout
is valid JSON parsing to `j`). -/
structure CompletedResult where
  returncode : Int
  parsedStdout : Option Json

/-- Failure reasons wrapped in `UpdateFailed` by `_run_catalysis_command`
(coordinator.py lines 103, 110, 114; the generic `except Exception` on line
115 re-wraps the first two, keeping the exception class `UpdateFailed`). -/
inductive UpdateFailedReason where
  | commandFailed
  | invalidJson
  | timedOut

/-- `PetivityCoordinatorBase._run_catalysis_command` (coordinator.py lines
85-117).  `none` models `subprocess.TimeoutExpired`; a completed process
with exit code 0 and JSON stdout returns the parsed value, every other
outcome raises `UpdateFailed`. -/
def runCatalysisCommand : Option CompletedResult → Except UpdateFailedReason Json
  | none => .error .timedOut
  | some r =>
      if r.returncode ≠ 0 then .error .commandFailed
      else
        match r.parsedStdout with
        | some j => .ok j
        | none => .error .invalidJson

/-! Weight coordinator (`coordinator.py`, `PetivityWeightCoordinator`). -/

/-- `WEIGHT_TIME_WINDOW = 7` (const.py line 16). -/
def WEIGHT_TIME_WINDOW : Int := 7

/-- `0.00220462` pounds per gram (coordinator.py line 336). -/
def gramsToPounds : ℚ := 220462 / 100000000

/-- Python `round` at a tie rounds half to even (banker's rounding). -/
def roundHalfEven (x : ℚ) : ℤ :=
  let f := ⌊x⌋
  let d := x - f
  if d < 1 / 2 then f
  else if 1 / 2 < d then f + 1
  else if f % 2 = 0 then f else f + 1

/-- `round(value, 2)` on an exact rational value. -/
def round2 (q : ℚ) : ℚ := (roundHalfEven (q * 100) : ℚ) / 100

/-- The `try` body of `_extract_current_weight` (coordinator.py lines
324-337): walk the nested response, take the last weight entry, and convert
its non-`None` mean from grams to pounds. -/
def extractWeightBody (resp : Json) : Except PyErr (Option ℚ) := do
  let d1 ← resp.pyGet "data" (Json.obj .nil)
  let d2 ← d1.pyGet "authenticate" (Json.obj .nil)
  let catData ← d2.pyGet "node" (Json.obj .nil)
  let ae ← catData.pyGet "aggregatedEvents" (Json.obj .nil)
  let wd ← ae.pyGet "weight" (Json.jarr [])
  if wd.truthy then
    let latest ← wd.pyLast
    let weightGrams ← latest.pyGet "mean" Json.null
    match weightGrams with
    | Json.null => pure none
    | g => do
        let pounds ← g.pyMulConst gramsToPounds
        pure (some (round2 pounds))
  else pure none

/-- `PetivityWeightCoordinator._extract_current_weight` (coordinator.py
lines 322-342): `except (KeyError, TypeError, IndexError)` falls through to
`return None`; any other exception propagates. -/
def extractCurrentWeight (resp : Json) : Except PyErr (Option ℚ) :=
  match extractWeightBody resp with
  | .ok v => .ok v
  | .error e => if e.caughtKTI then .ok none else .error e

/-- The two fields of a cat dict read by `_async_update_data`
(`cat["id"]`, `cat["name"]`, coordinator.py lines 284-285). -/
structure WCat where
  id : Json
  name : Json

/-- Entry of `self._cat_weights` / `weight_data` (coordinator.py lines
301-306).  `last_updated` is the refresh timestamp. -/
structure WeightEntry where
  cat_name : Json
  current_weight : Option ℚ
  raw_data : Json
  last_updated : Int

/-- The `_cat_weights` dict, keyed by cat id (insertion-ordered). -/
def Cache := List (Json × WeightEntry)

/-- Python dict lookup on the weight cache. -/
def dlookup : Cache → Json → Option WeightEntry
  | [], _ => none
  | (k', v) :: rest, k => if k.beq k' then some v else dlookup rest k

/-- Python dict assignment `d[k] = v`: overwrite in place or append. -/
def dinsert : Cache → Json → WeightEntry → Cache
  | [], k, v => [(k, v)]
  | (k', v') :: rest, k, v =>
      if k.beq k' then (k', v) :: rest else (k', v') :: dinsert rest k v

/-- One invocation `self._run_catalysis_command("weight", cat_id,
start_date.isoformat(), end_date.isoformat(), "DAY")` (coordinator.py lines
290-296), recorded with its arguments.  Dates are day numbers. -/
structure WeightCmd where
  command : String
  cat_id : Json
  start_date : Int
  end_date : Int
  granularity : String

/-- The `for cat in cats` loop of `_async_update_data` (coordinator.py lines
283-316).  `fetch i` is the outcome of the i-th `weight` subprocess call
(`Except.error` models any raised exception, caught by the per-cat
`except Exception`); an exception from `_extract_current_weight` is caught
by the same handler.  On failure the previous cache entry for that id, when
present, is copied into the new dict. -/
def weightLoop (fetch : Nat → Except Unit Json) (prev : Cache) (today : Int) :
    List WCat → Nat → Cache → Cache × List WeightCmd
  | [], _, wd => (wd, [])
  | c :: rest, i, wd =>
      let cmd : WeightCmd :=
        ⟨"weight", c.id, today - WEIGHT_TIME_WINDOW, today, "DAY"⟩
      let step : Cache :=
        match fetch i with
        | .ok resp =>
            match extractCurrentWeight resp with
            | .ok cw => dinsert wd c.id ⟨c.name, cw, resp, today⟩
            | .error _ =>
                match dlookup prev c.id with
                | some e => dinsert wd c.id e
                | none => wd
        | .error _ =>
            match dlookup prev c.id with
            | some e => dinsert wd c.id e
            | none => wd
      let rec_result := weightLoop fetch prev today rest (i + 1) step
      (rec_result.1, cmd :: rec_result.2)

/-- `PetivityWeightCoordinator._async_update_data` (coordinator.py lines
258-320), together with the list of issued `weight` commands.  `status =
none` models an exception while reading the status coordinator (lines
269-274); `some cats` is `status_coordinator.get_cats()`.  Both early
returns yield `self._cat_weights or {}`, which equals the previous cache as
a value.  `today` is `datetime.now().date()` as a day number, so
`start_date = today - WEIGHT_TIME_WINDOW` (lines 277-278). -/
def weightUpdate (prev : Cache) (status : Option (List WCat))
    (fetch : Nat → Except Unit Json) (today : Int) : Cache × List WeightCmd :=
  match status with
  | none => (prev, [])
  | some cats =>
      if cats.isEmpty then (prev, [])
      else weightLoop fetch prev today cats 0 []

/-- `PetivityWeightCoordinator.get_cat_weight` (coordinator.py lines
344-348). -/
def getCatWeight (cache : Cache) (catId : Json) : Option ℚ :=
  match dlookup cache catId with
  | some e => e.current_weight
  | none => none

/-- `PetivityWeightCoordinator.get_cat_name` (coordinator.py lines 350-354);
`Json.null` is Python `None`. -/
def getCatName (cache : Cache) (catId : Json) : Json :=
  match dlookup cache catId with
  | some e => e.cat_name
  | none => Json.null

/-- `PetivityCatWeightSensor.available` (sensor.py lines 215-218). -/
def catWeightSensorAvailable (cache : Cache) (catId : Json) : Bool :=
  (getCatWeight cache catId).isSome

/-! Config flow (`config_flow.py`). -/

/-- The filesystem facts queried by `_validate_setup`: `os.path.isfile`,
`os.access(-, os.X_OK)` and `os.path.isdir`. -/
structure PyFS where
  isFile : String → Bool
  isExec : String → Bool
  isDir : String → Bool

/-- `os.path.join` for relative second components. -/
def pathJoin (a b : String) : String := a ++ "/" ++ b

/-- `required_files` (config_flow.py lines 82-85). -/
def requiredGraphqlFiles : List String := ["status.graphql", "cat-weight.graphql"]

/-- `PetivityConfigFlow._validate_setup` (config_flow.py lines 63-93). -/
def validateSetup (fs : PyFS) (scriptPath workingDir : String) : Bool :=
  if !(fs.isFile scriptPath && fs.isExec scriptPath) then false
  else if !(fs.isDir workingDir) then false
  else
    let queriesDir := pathJoin workingDir "queries"
    if !(fs.isDir queriesDir) then false
    else requiredGraphqlFiles.all fun f => fs.isFile (pathJoin queriesDir f)

/-- The submitted form fields (config_flow.py lines 45-51). -/
structure UserInput where
  scriptPath : String
  workingDir : String
  jwt : String
  clientId : String
  refreshToken : String

/-- Result of a config-flow step: a created entry or the form again. -/
inductive FlowResult where
  | createEntry (title : String) (data : UserInput)
  | showForm (errors : List String)

/-- `PetivityConfigFlow.async_step_user` (config_flow.py lines 28-61):
with no input show the form; with input create the entry exactly when
`_validate_setup` succeeds, otherwise show the form with the
`invalid_setup` error. -/
def asyncStepUser (fs : PyFS) (userInput : Option UserInput) : FlowResult :=
  match userInput with
  | none => .showForm []
  | some u =>
      if validateSetup fs u.scriptPath u.workingDir then
        .createEntry "Petivity Pet Monitoring" u
      else .showForm ["invalid_setup"]

/-! Sensor platform (`sensor.py`). -/

/-- The entity classes instantiated by `async_setup_entry` (sensor.py lines
14-51), tagged with the cat or machine id they are built from. -/
inductive Entity where
  | catActivity (catId : Json)
  | catWeight (catId : Json)
  | machineStatus (machineId : Json)
  | machineEventCount (machineId : Json)
  | machineLastEvent (machineId : Json)
  | machineBattery (machineId : Json)

/-- `machine.get("battery_percentage") is not None` (sensor.py line 46);
the key is always present on dicts built by `get_machines`. -/
def hasBattery (m : MachineRec) : Bool :=
  match m.battery_percentage with
  | Json.null => false
  | _ => true

/-- `async_setup_entry` of the sensor platform (sensor.py lines 14-51):
two sensors per discovered cat, three per discovered machine, plus a
battery sensor for machines with a non-`None` battery percentage. -/
def setupEntities (cats : List CatRec) (machines : List MachineRec) : List Entity :=
  (cats.flatMap fun c => [Entity.catActivity c.id, Entity.catWeight c.id]) ++
  (machines.flatMap fun m =>
    [Entity.machineStatus m.id, Entity.machineEventCount m.id,
     Entity.machineLastEvent m.id] ++
    (if hasBattery m then [Entity.machineBattery m.id] else []))

/-! Weight-history service (`__init__.py`, `get_weight_history`). -/

/-- Events fired on the Home Assistant bus by the service handler:
`petivity_weight_history_response` and `petivity_weight_history_error`
(`DOMAIN = "petivity"`, const.py line 3). -/
inductive HAEvent where
  | weightHistoryResponse (catId : Json) (days : Nat) (data : Json) (requestId : String)
  | weightHistoryError (catId : Json) (error : String) (requestId : String)

/-- The `get_weight_history` service handler (`__init__.py` lines 36-64),
returning the list of events it fires.  Modelled from the spec: the handler
awaits `weight_coordinator.async_get_historical_weight`, a method that does
not exist in the sources (only this call site does), so its outcome is an
arbitrary `fetchResult`; `Except.error` covers any raised exception,
including the `AttributeError` from the missing method, all caught by the
handler's `except Exception`. -/
def getWeightHistory (fetchResult : Except String Json) (catId : Json)
    (days : Nat) (requestId : String) : List HAEvent :=
  match fetchResult with
  | .ok d => [HAEvent.weightHistoryResponse catId days d requestId]
  | .error e => [HAEvent.weightHistoryError catId e requestId]

/-! Auxiliary definitions used to state the theorems. -/

/-- Discriminators for the entity classes created by the sensor platform. -/
def Entity.isCatActivity : Entity → Bool
  | .catActivity _ => true
  | _ => false

def Entity.isCatWeight : Entity → Bool
  | .catWeight _ => true
  | _ => false

def Entity.isMachineStatus : Entity → Bool
  | .machineStatus _ => true
  | _ => false

def Entity.isMachineEventCount : Entity → Bool
  | .machineEventCount _ => true
  | _ => false

def Entity.isMachineLastEvent : Entity → Bool
  | .machineLastEvent _ => true
  | _ => false

def Entity.isMachineBattery : Entity → Bool
  | .machineBattery _ => true
  | _ => false

/-- Sum of the values of the `event_counts` dict. -/
def countSum : List (Json × Nat) → Nat
  | [] => 0
  | (_, v) :: rest => v + countSum rest

/-- Per-event view of the `get_machines` event loop: `some` exactly for
events whose `normalisedClassification` has truthy `isCat` and truthy
`isElimination` (coordinator.py line 206), carrying the processed dict of
lines 210-214; `none` for skipped events and for events whose processing
would raise. -/
def processedOf (ev : Json) : Option PEvent :=
  match ev.pyGet "normalisedClassification" (Json.obj .nil) with
  | .error _ => none
  | .ok cls =>
      match cls.pyGet "isCat" Json.null with
      | .error _ => none
      | .ok isCat =>
          if isCat.truthy then
            match cls.pyGet "isElimination" Json.null with
            | .error _ => none
            | .ok isElim =>
                if isElim.truthy then
                  match cls.pyGet "elimType" (Json.str "unknown"),
                        cls.pyGet "cat" (Json.obj .nil) with
                  | .ok elimType, .ok catInfo =>
                      match ev.pyGet "startTime" Json.null,
                            catInfo.pyGet "id" Json.null with
                      | .ok startTime, .ok catId => some ⟨startTime, elimType, catId⟩
                      | _, _ => none
                  | _, _ => none
                else none
          else none

/-- The `eliminationEvents` list of one machine dict
(coordinator.py line 198 followed by the loop's iteration). -/
def machineElimEvents (machine : Json) : Except PyErr (List Json) := do
  let ee ← machine.pyGet "eliminationEvents" (Json.jarr [])
  ee.pyIter

/-- `x` can only fail with an exception satisfying `p`. -/
def ErrSub {α : Type} (x : Except PyErr α) (p : PyErr → Prop) : Prop :=
  ∀ e, x = .error e → p e

/-- A well-formed weight response with weight array `ws`
(the GraphQL shape parsed by `_extract_current_weight`). -/
def mkWeightResp (ws : List Json) : Json :=
  Json.jobj [("data", Json.jobj [("authenticate", Json.jobj [("node", Json.jobj
    [("aggregatedEvents", Json.jobj [("weight", Json.jarr ws)])])])])]

/-! Concrete inputs used by counterexamples and witnesses. -/

/-- A well-formed weight response: two daily means, latest 1000 g. -/
def sampleWeightResp : Json :=
  mkWeightResp [Json.jobj [("mean", Json.num 500)], Json.jobj [("mean", Json.num 1000)]]

/-- A well-formed status response with one cat and one machine that has one
qualifying elimination event and one non-qualifying one. -/
def sampleStatusData : Json :=
  Json.jobj [("data", Json.jobj [("authenticate", Json.jobj [("myHousehold", Json.jobj
    [("cats", Json.jarr [Json.jobj [("id", Json.str "c1"), ("name", Json.str "Felix")]]),
     ("machines", Json.jarr [Json.jobj [("name", Json.str "Box"),
       ("eliminationEvents", Json.jarr [
          Json.jobj [("normalisedClassification", Json.jobj
            [("isCat", Json.bool true), ("isElimination", Json.bool true),
             ("elimType", Json.str "urination"),
             ("cat", Json.jobj [("id", Json.str "c1")])]),
            ("startTime", Json.str "t1")],
          Json.jobj [("normalisedClassification", Json.jobj
            [("isCat", Json.bool false)])]])]])])])])]

/-- The machine record `get_machines` produces for `sampleStatusData`. -/
def sampleMachine : MachineRec :=
  { id := Json.str "Box", name := Json.str "Box",
    battery_percentage := Json.null, show_battery_warning := Json.bool false,
    wifi_rssi := Json.null, power_mode := Json.null, is_frozen := Json.bool false,
    most_recent_upload := Json.null, upload_warning := Json.bool false,
    is_dirty := Json.bool false, balanced_status := Json.null,
    recent_events := [⟨Json.str "t1", Json.str "urination", Json.str "c1"⟩],
    recent_event_count := 1,
    event_counts := [(Json.str "urination", 1), (Json.str "defecation", 0),
                     (Json.str "combo", 0), (Json.str "unknown", 0)],
    most_recent_event := some ⟨Json.str "t1", Json.str "urination", Json.str "c1"⟩,
    last_event_time := Json.str "t1", last_event_type := Json.str "urination",
    last_event_cat_id := Json.str "c1" }

/-- A cached weight entry from an earlier refresh. -/
def staleEntry : WeightEntry := ⟨Json.str "Felix", some 5, Json.null, 5⟩

/-- A previous cache holding cat id `"A"`. -/
def prevCacheCex : Cache := [(Json.str "A", staleEntry)]

/-- Two cats sharing the id `"A"`, as `get_cats` can return when the status
response lists the same cat twice. -/
def catsCex : List WCat := [⟨Json.str "A", Json.str "Felix"⟩, ⟨Json.str "A", Json.str "Felix"⟩]

/-- Subprocess outcomes: the first `weight` call raises, the second
succeeds. -/
def fetchCex : Nat → Except Unit Json
  | 0 => .error ()
  | _ => .ok sampleWeightResp
mutual
theorem Json.beqRefl : ∀ a : Json, a.beq a = true
  | .null => rfl
  | .bool a => by simp [Json.beq]
  | .num a => by simp [Json.beq]
  | .str a => by simp [Json.beq]
  | .arr xs => JsonList.beqReflList xs
  | .obj xs => JsonObj.beqReflObj xs

theorem JsonList.beqReflList : ∀ xs : JsonList, JsonList.beq xs xs = true
  | .nil => rfl
  | .cons a as => by
      simp only [JsonList.beq, Bool.and_eq_true]
      exact ⟨Json.beqRefl a, JsonList.beqReflList as⟩

theorem JsonObj.beqReflObj : ∀ xs : JsonObj, JsonObj.beq xs xs = true
  | .nil => rfl
  | .cons k v rest => by
      simp [JsonObj.beq, Json.beqRefl v, JsonObj.beqReflObj rest]
end

mutual
theorem Json.beqSound : ∀ {a b : Json}, a.beq b = true → a = b
  | .null, .null, _ => rfl
  | .bool a, .bool b, h => by
      simp only [Json.beq, decide_eq_true_eq] at h; rw [h]
  | .num a, .num b, h => by
      simp only [Json.beq, decide_eq_true_eq] at h; rw [h]
  | .str a, .str b, h => by
      simp only [Json.beq, decide_eq_true_eq] at h; rw [h]
  | .arr xs, .arr ys, h => by rw [JsonList.beqSoundList h]
  | .obj xs, .obj ys, h => by rw [JsonObj.beqSoundObj h]
  | .null, .bool _, h => nomatch h
  | .null, .num _, h => nomatch h
  | .null, .str _, h => nomatch h
  | .null, .arr _, h => nomatch h
  | .null, .obj _, h => nomatch h
  | .bool _, .null, h => nomatch h
  | .bool _, .num _, h => nomatch h
  | .bool _, .str _, h => nomatch h
  | .bool _, .arr _, h => nomatch h
  | .bool _, .obj _, h => nomatch h
  | .num _, .null, h => nomatch h
  | .num _, .bool _, h => nomatch h
  | .num _, .str _, h => nomatch h
  | .num _, .arr _, h => nomatch h
  | .num _, .obj _, h => nomatch h
  | .str _, .null, h => nomatch h
  | .str _, .bool _, h => nomatch h
  | .str _, .num _, h => nomatch h
  | .str _, .arr _, h => nomatch h
  | .str _, .obj _, h => nomatch h
  | .arr _, .null, h => nomatch h
  | .arr _, .bool _, h => nomatch h
  | .arr _, .num _, h => nomatch h
  | .arr _, .str _, h => nomatch h
  | .arr _, .obj _, h => nomatch h
  | .obj _, .null, h => nomatch h
  | .obj _, .bool _, h => nomatch h
  | .obj _, .num _, h => nomatch h
  | .obj _, .str _, h => nomatch h
  | .obj _, .arr _, h => nomatch h

theorem JsonList.beqSoundList : ∀ {xs ys : JsonList}, JsonList.beq xs ys = true → xs = ys
  | .nil, .nil, _ => rfl
  | .cons a as, .cons b bs, h => by
      simp only [JsonList.beq, Bool.and_eq_true] at h
      rw [Json.beqSound h.1, JsonList.beqSoundList h.2]
  | .nil, .cons _ _, h => nomatch h
  | .cons _ _, .nil, h => nomatch h

theorem JsonObj.beqSoundObj : ∀ {xs ys : JsonObj}, JsonObj.beq xs ys = true → xs = ys
  | .nil, .nil, _ => rfl
  | .cons k v rest, .cons k' v' rest', h => by
      simp only [JsonObj.beq, Bool.and_eq_true, decide_eq_true_eq] at h
      rw [h.1.1, Json.beqSound h.1.2, JsonObj.beqSoundObj h.2]
  | .nil, .cons _ _ _, h => nomatch h
  | .cons _ _ _, .nil, h => nomatch h
end

theorem Json.beq_false_symm {a b : Json} (h : a.beq b = false) : b.beq a = false := by
  cases hb : b.beq a with
  | false => rfl
  | true => rw [Json.beqSound hb, Json.beqRefl] at h; exact absurd h (by simp)


theorem JsonList.toList_ofList : ∀ l : List Json, (JsonList.ofList l).toList = l
  | [] => rfl
  | a :: as => by simp [JsonList.ofList, JsonList.toList, JsonList.toList_ofList as]


/-! Claim theorems. -/

/-- C1: `_run_catalysis_command` returns the parsed JSON value exactly when
the subprocess completes with return code 0 and its stdout is valid JSON;
on a non-zero return code, invalid JSON on stdout, or a timeout it raises
`UpdateFailed` and returns no value. -/
theorem run_catalysis_command_spec :
    ∀ res : Option CompletedResult,
      (∀ j, runCatalysisCommand res = Except.ok j ↔
        ∃ r, res = some r ∧ r.returncode = 0 ∧ r.parsedStdout = some j) ∧
      ((res = none ∨ ∃ r, res = some r ∧ (r.returncode ≠ 0 ∨ r.parsedStdout = none)) →
        ∃ e, runCatalysisCommand res = Except.error e) := by
  intro res
  constructor
  · intro j
    cases res with
    | none => simp [runCatalysisCommand]
    | some r =>
        obtain ⟨rc, ps⟩ := r
        by_cases h : rc = 0
        · subst h
          cases ps <;> simp [runCatalysisCommand]
        · simp [runCatalysisCommand, h]
  · intro h
    rcases h with h | ⟨r, hr, h⟩
    · exact ⟨.timedOut, by simp [h, runCatalysisCommand]⟩
    · subst hr
      obtain ⟨rc, ps⟩ := r
      rcases h with h | h
      · exact ⟨.commandFailed, by simp [runCatalysisCommand, h]⟩
      · by_cases hrc : rc = 0
        · subst hrc
          exact ⟨.invalidJson, by simp [runCatalysisCommand, show ps = none from h]⟩
        · exact ⟨.commandFailed, by simp [runCatalysisCommand, hrc]⟩

theorem run_catalysis_command_spec_witness :
    runCatalysisCommand (some ⟨0, some Json.null⟩) = Except.ok Json.null ∧
    ∃ e, runCatalysisCommand none = Except.error e :=
  ⟨((run_catalysis_command_spec (some ⟨0, some Json.null⟩)).1 Json.null).mpr
      ⟨⟨0, some Json.null⟩, rfl, rfl, rfl⟩,
   (run_catalysis_command_spec none).2 (Or.inl rfl)⟩

/-- C5: `async_step_user` creates a config entry iff `_validate_setup`
succeeds, and `_validate_setup` returns `True` exactly when the script path
names an existing executable file, the working directory exists, it has a
`queries` subdirectory, and that subdirectory contains both
`status.graphql` and `cat-weight.graphql`. -/
theorem config_flow_validation_spec :
    ∀ (fs : PyFS) (u : UserInput),
      asyncStepUser fs none = FlowResult.showForm [] ∧
      ((∃ t d, asyncStepUser fs (some u) = FlowResult.createEntry t d) ↔
        validateSetup fs u.scriptPath u.workingDir = true) ∧
      (validateSetup fs u.scriptPath u.workingDir = true ↔
        (fs.isFile u.scriptPath = true ∧ fs.isExec u.scriptPath = true ∧
         fs.isDir u.workingDir = true ∧
         fs.isDir (pathJoin u.workingDir "queries") = true ∧
         fs.isFile (pathJoin (pathJoin u.workingDir "queries") "status.graphql") = true ∧
         fs.isFile (pathJoin (pathJoin u.workingDir "queries") "cat-weight.graphql") = true)) := by
  intro fs u
  refine ⟨rfl, ?_, ?_⟩
  · constructor
    · rintro ⟨t, d, h⟩
      by_cases hv : validateSetup fs u.scriptPath u.workingDir = true
      · exact hv
      · simp [asyncStepUser, hv] at h
    · intro hv
      exact ⟨"Petivity Pet Monitoring", u, by simp [asyncStepUser, hv]⟩
  · simp only [validateSetup, requiredGraphqlFiles, List.all_cons, List.all_nil,
      Bool.and_true, Bool.not_eq_eq_eq_not, Bool.not_true, Bool.and_eq_true,
      Bool.not_eq_true']
    constructor
    · intro h
      split at h
      · exact absurd h (by simp)
      · next h1 =>
          split at h
          · exact absurd h (by simp)
          · next h2 =>
              split at h
              · exact absurd h (by simp)
              · next h3 =>
                  simp only [Bool.not_eq_false] at h1 h2 h3
                  simp only [Bool.and_eq_true] at h1 h
                  exact ⟨h1.1, h1.2, h2, h3, h.1, h.2⟩
    · rintro ⟨hf, hx, hd, hq, h1, h2⟩
      simp [hf, hx, hd, hq, h1, h2]

theorem config_flow_validation_spec_witness :
    validateSetup ⟨fun _ => true, fun _ => true, fun _ => true⟩ "s" "w" = true ∧
    ∃ t d, asyncStepUser ⟨fun _ => true, fun _ => true, fun _ => true⟩
      (some ⟨"s", "w", "j", "c", "r"⟩) = FlowResult.createEntry t d :=
  ⟨((config_flow_validation_spec ⟨fun _ => true, fun _ => true, fun _ => true⟩
      ⟨"s", "w", "j", "c", "r"⟩).2.2).mpr ⟨rfl, rfl, rfl, rfl, rfl, rfl⟩,
   ((config_flow_validation_spec ⟨fun _ => true, fun _ => true, fun _ => true⟩
      ⟨"s", "w", "j", "c", "r"⟩).2.1).mpr (by rfl)⟩

/-- C9: for a cat id absent from the cached weight data, `get_cat_weight`
and `get_cat_name` both return `None`, and the cat weight sensor is
available exactly when `get_cat_weight` returns a non-`None` value. -/
theorem cat_weight_lookup_spec :
    ∀ (cache : Cache) (catId : Json),
      (dlookup cache catId = none →
        getCatWeight cache catId = none ∧ getCatName cache catId = Json.null) ∧
      (catWeightSensorAvailable cache catId = true ↔ getCatWeight cache catId ≠ none) := by
  intro cache catId
  constructor
  · intro h
    simp [getCatWeight, getCatName, h]
  · simp [catWeightSensorAvailable, Option.isSome_iff_ne_none]

theorem cat_weight_lookup_spec_witness :
    getCatWeight [] (Json.str "c9") = none ∧ getCatName [] (Json.str "c9") = Json.null :=
  (cat_weight_lookup_spec [] (Json.str "c9")).1 rfl

/-- C10: the `get_weight_history` service handler fires exactly one event
and never propagates an exception: the response event when fetching
succeeds, the error event (carrying the error string and the request id)
when any exception occurs. -/
theorem get_weight_history_events_spec :
    ∀ (fetchResult : Except String Json) (catId : Json) (days : Nat) (requestId : String),
      (getWeightHistory fetchResult catId days requestId).length = 1 ∧
      (∀ d, fetchResult = Except.ok d →
        getWeightHistory fetchResult catId days requestId =
          [HAEvent.weightHistoryResponse catId days d requestId]) ∧
      (∀ e, fetchResult = Except.error e →
        getWeightHistory fetchResult catId days requestId =
          [HAEvent.weightHistoryError catId e requestId]) := by
  intro f c d r
  cases f <;> simp [getWeightHistory]

theorem get_weight_history_events_spec_witness :
    (getWeightHistory (Except.error "boom") Json.null 30 "").length = 1 ∧
    getWeightHistory (Except.error "boom") Json.null 30 "" =
      [HAEvent.weightHistoryError Json.null "boom" ""] :=
  ⟨(get_weight_history_events_spec (Except.error "boom") Json.null 30 "").1,
   (get_weight_history_events_spec (Except.error "boom") Json.null 30 "").2.2 "boom" rfl⟩

theorem weightLoop_cmds (fetch : Nat → Except Unit Json) (prev : Cache) (today : Int) :
    ∀ (cs : List WCat) (i : Nat) (wd : Cache),
      (weightLoop fetch prev today cs i wd).2 =
        cs.map (fun c => WeightCmd.mk "weight" c.id (today - WEIGHT_TIME_WINDOW) today "DAY")
  | [], _, _ => rfl
  | c :: rest, i, wd => by
      have ih := weightLoop_cmds fetch prev today rest (i + 1)
      simp [weightLoop, ih]

/-- C3: each weight refresh issues exactly one `weight` command per cat
returned by the status coordinator, with that cat's id, a start date
`WEIGHT_TIME_WINDOW = 7` days before today, today as the end date and
granularity `"DAY"`; when the status coordinator is unavailable no command
is issued. -/
theorem weight_refresh_commands_spec :
    ∀ (prev : Cache) (cats : List WCat) (fetch : Nat → Except Unit Json) (today : Int),
      (weightUpdate prev (some cats) fetch today).2 =
        cats.map (fun c => WeightCmd.mk "weight" c.id (today - WEIGHT_TIME_WINDOW) today "DAY") ∧
      (weightUpdate prev none fetch today).2 = [] := by
  intro prev cats fetch today
  constructor
  · cases cats with
    | nil => rfl
    | cons c rest =>
        simp only [weightUpdate, List.isEmpty_cons, Bool.false_eq_true, if_false]
        exact weightLoop_cmds fetch prev today (c :: rest) 0 []
  · rfl

theorem countP_catsPart (p : Entity → Bool) (b1 b2 : Bool)
    (h1 : ∀ j, p (Entity.catActivity j) = b1) (h2 : ∀ j, p (Entity.catWeight j) = b2) :
    ∀ cats : List CatRec,
      ((cats.flatMap fun c => [Entity.catActivity c.id, Entity.catWeight c.id]).countP p) =
        cats.length * ((cond b1 1 0) + (cond b2 1 0))
  | [] => by simp
  | c :: rest => by
      simp only [List.flatMap_cons, List.countP_append, List.countP_cons, List.countP_nil,
        countP_catsPart p b1 b2 h1 h2 rest, h1, h2, List.length_cons]
      cases b1 <;> cases b2 <;> simp <;> ring

theorem countP_machinesPart (p : Entity → Bool) (b1 b2 b3 b4 : Bool)
    (h1 : ∀ j, p (Entity.machineStatus j) = b1)
    (h2 : ∀ j, p (Entity.machineEventCount j) = b2)
    (h3 : ∀ j, p (Entity.machineLastEvent j) = b3)
    (h4 : ∀ j, p (Entity.machineBattery j) = b4) :
    ∀ machines : List MachineRec,
      ((machines.flatMap fun m =>
          [Entity.machineStatus m.id, Entity.machineEventCount m.id,
           Entity.machineLastEvent m.id] ++
          (if hasBattery m then [Entity.machineBattery m.id] else [])).countP p) =
        machines.length * ((cond b1 1 0) + (cond b2 1 0) + (cond b3 1 0)) +
          (machines.countP hasBattery) * (cond b4 1 0)
  | [] => by simp
  | m :: rest => by
      simp only [List.flatMap_cons, List.countP_append, List.countP_cons, List.countP_nil,
        countP_machinesPart p b1 b2 b3 b4 h1 h2 h3 h4 rest, h1, h2, h3, List.length_cons]
      cases hb : hasBattery m <;>
        simp [List.countP_cons, hb, h4] <;>
        cases b1 <;> cases b2 <;> cases b3 <;> cases b4 <;> simp <;> ring

/-- C7: the sensor platform creates exactly two entities per discovered cat
(activity and weight), exactly three per discovered machine (status, event
count, last event), one battery sensor per machine whose
`battery_percentage` is not `None`, and nothing else. -/
theorem sensor_setup_entities_spec :
    ∀ (cats : List CatRec) (machines : List MachineRec),
      ((setupEntities cats machines).countP Entity.isCatActivity = cats.length) ∧
      ((setupEntities cats machines).countP Entity.isCatWeight = cats.length) ∧
      ((setupEntities cats machines).countP Entity.isMachineStatus = machines.length) ∧
      ((setupEntities cats machines).countP Entity.isMachineEventCount = machines.length) ∧
      ((setupEntities cats machines).countP Entity.isMachineLastEvent = machines.length) ∧
      ((setupEntities cats machines).countP Entity.isMachineBattery =
        machines.countP hasBattery) ∧
      ((setupEntities cats machines).length =
        2 * cats.length + 3 * machines.length + machines.countP hasBattery) := by
  intro cats machines
  have hsplit : ∀ p : Entity → Bool, (setupEntities cats machines).countP p =
      ((cats.flatMap fun c => [Entity.catActivity c.id, Entity.catWeight c.id]).countP p) +
      ((machines.flatMap fun m =>
          [Entity.machineStatus m.id, Entity.machineEventCount m.id,
           Entity.machineLastEvent m.id] ++
          (if hasBattery m then [Entity.machineBattery m.id] else [])).countP p) := by
    intro p
    simp [setupEntities, List.countP_append]
  refine ⟨?_, ?_, ?_, ?_, ?_, ?_, ?_⟩
  · rw [hsplit, countP_catsPart _ true false (fun _ => rfl) (fun _ => rfl),
      countP_machinesPart _ false false false false
        (fun _ => rfl) (fun _ => rfl) (fun _ => rfl) (fun _ => rfl)]
    simp
  · rw [hsplit, countP_catsPart _ false true (fun _ => rfl) (fun _ => rfl),
      countP_machinesPart _ false false false false
        (fun _ => rfl) (fun _ => rfl) (fun _ => rfl) (fun _ => rfl)]
    simp
  · rw [hsplit, countP_catsPart _ false false (fun _ => rfl) (fun _ => rfl),
      countP_machinesPart _ true false false false
        (fun _ => rfl) (fun _ => rfl) (fun _ => rfl) (fun _ => rfl)]
    simp
  · rw [hsplit, countP_catsPart _ false false (fun _ => rfl) (fun _ => rfl),
      countP_machinesPart _ false true false false
        (fun _ => rfl) (fun _ => rfl) (fun _ => rfl) (fun _ => rfl)]
    simp
  · rw [hsplit, countP_catsPart _ false false (fun _ => rfl) (fun _ => rfl),
      countP_machinesPart _ false false true false
        (fun _ => rfl) (fun _ => rfl) (fun _ => rfl) (fun _ => rfl)]
    simp
  · rw [hsplit, countP_catsPart _ false false (fun _ => rfl) (fun _ => rfl),
      countP_machinesPart _ false false false true
        (fun _ => rfl) (fun _ => rfl) (fun _ => rfl) (fun _ => rfl)]
    simp
  · have hlen : (setupEntities cats machines).length =
        (setupEntities cats machines).countP (fun _ => true) := by
      simp
    rw [hlen, hsplit, countP_catsPart _ true true (fun _ => rfl) (fun _ => rfl),
      countP_machinesPart _ true true true true
        (fun _ => rfl) (fun _ => rfl) (fun _ => rfl) (fun _ => rfl)]
    simp only [Bool.cond_true]
    ring

theorem errSub_pyGet (j : Json) (k : String) (d : Json) :
    ErrSub (j.pyGet k d) (· ≠ PyErr.indexError) := by
  intro e h
  cases j <;> simp [Json.pyGet] at h <;> simp [← h]

theorem errSub_pyIter (j : Json) : ErrSub j.pyIter (· ≠ PyErr.indexError) := by
  intro e h
  cases j <;> simp [Json.pyIter] at h <;> simp [← h]

theorem errSub_pure {α : Type} (a : α) (p : PyErr → Prop) :
    ErrSub (pure a : Except PyErr α) p := by
  intro e h
  exact absurd h (by simp [pure, Except.pure])

theorem errSub_bind {α β : Type} {x : Except PyErr α} {f : α → Except PyErr β}
    {p : PyErr → Prop} (hx : ErrSub x p) (hf : ∀ a, ErrSub (f a) p) :
    ErrSub (x >>= f) p := by
  intro e h
  cases hx' : x with
  | error e' =>
      rw [hx'] at h
      simp only [bind, Except.bind] at h
      injection h with h
      exact h ▸ hx e' hx'
  | ok a =>
      rw [hx'] at h
      simp only [bind, Except.bind] at h
      exact hf a e h

theorem errSub_mkCat (j : Json) : ErrSub (mkCat j) (· ≠ PyErr.indexError) := by
  unfold mkCat
  refine errSub_bind (errSub_pyGet _ _ _) fun a1 => ?_
  refine errSub_bind (errSub_pyGet _ _ _) fun a2 => ?_
  refine errSub_bind (errSub_pyGet _ _ _) fun a3 => ?_
  refine errSub_bind (errSub_pyGet _ _ _) fun a4 => ?_
  refine errSub_bind (errSub_pyGet _ _ _) fun a5 => ?_
  refine errSub_bind (errSub_pyGet _ _ _) fun a6 => ?_
  exact errSub_pure _ _

theorem loopCats_err : ∀ (items : List Json) (acc : List CatRec) (e : PyErr),
    (loopCats items acc).2 = some e → e ≠ PyErr.indexError
  | [], acc, e => by simp [loopCats]
  | j :: rest, acc, e => by
      intro h
      unfold loopCats at h
      cases hm : mkCat j with
      | ok c =>
          simp only [hm] at h
          exact loopCats_err rest (acc ++ [c]) e h
      | error e' =>
          simp only [hm, Option.some.injEq] at h
          exact h ▸ errSub_mkCat j e' hm

theorem errSub_catsChain (data : Json) : ErrSub (catsChain data) (· ≠ PyErr.indexError) := by
  unfold catsChain
  refine errSub_bind (errSub_pyGet _ _ _) fun a1 => ?_
  refine errSub_bind (errSub_pyGet _ _ _) fun a2 => ?_
  refine errSub_bind (errSub_pyGet _ _ _) fun a3 => ?_
  exact errSub_pyGet _ _ _

theorem getCatsRaw_err (data : Json) (e : PyErr) :
    (getCatsRaw data).2 = some e → e ≠ PyErr.indexError := by
  intro h
  unfold getCatsRaw at h
  cases hc : catsChain data with
  | error e' =>
      simp only [hc, Option.some.injEq] at h
      exact h ▸ errSub_catsChain data e' hc
  | ok catsData =>
      simp only [hc] at h
      cases hi : catsData.pyIter with
      | error e' =>
          simp only [hi, Option.some.injEq] at h
          exact h ▸ errSub_pyIter catsData e' hi
      | ok items =>
          simp only [hi] at h
          exact loopCats_err items [] e h

theorem errSub_processEvents : ∀ (evs : List Json) (acc : List PEvent)
    (counts : List (Json × Nat)),
    ErrSub (processEvents evs acc counts) (· ≠ PyErr.indexError)
  | [], acc, counts => by
      intro e h
      exact absurd h (by simp [processEvents])
  | ev :: rest, acc, counts => by
      unfold processEvents
      refine errSub_bind (errSub_pyGet _ _ _) fun cls => ?_
      refine errSub_bind (errSub_pyGet _ _ _) fun isCat => ?_
      by_cases hc : isCat.truthy = true
      · simp only [hc, if_true]
        refine errSub_bind (errSub_pyGet _ _ _) fun isElim => ?_
        by_cases he : isElim.truthy = true
        · simp only [he, if_true]
          refine errSub_bind (errSub_pyGet _ _ _) fun elimType => ?_
          refine errSub_bind (errSub_pyGet _ _ _) fun catInfo => ?_
          refine errSub_bind (errSub_pyGet _ _ _) fun startTime => ?_
          refine errSub_bind (errSub_pyGet _ _ _) fun catId => ?_
          exact errSub_processEvents rest _ _
        · simp only [he, if_false]
          exact errSub_processEvents rest _ _
      · simp only [hc, if_false]
        exact errSub_processEvents rest _ _

theorem errSub_mkMachine (j : Json) : ErrSub (mkMachine j) (· ≠ PyErr.indexError) := by
  unfold mkMachine
  refine errSub_bind (errSub_pyGet _ _ _) fun ee => ?_
  refine errSub_bind (errSub_pyIter _) fun items => ?_
  refine errSub_bind (errSub_processEvents _ _ _) fun pc => ?_
  obtain ⟨processed, counts⟩ := pc
  refine errSub_bind (errSub_pyGet _ _ _) fun a1 => ?_
  refine errSub_bind (errSub_pyGet _ _ _) fun a2 => ?_
  refine errSub_bind (errSub_pyGet _ _ _) fun a3 => ?_
  refine errSub_bind (errSub_pyGet _ _ _) fun a4 => ?_
  refine errSub_bind (errSub_pyGet _ _ _) fun a5 => ?_
  refine errSub_bind (errSub_pyGet _ _ _) fun a6 => ?_
  refine errSub_bind (errSub_pyGet _ _ _) fun a7 => ?_
  refine errSub_bind (errSub_pyGet _ _ _) fun a8 => ?_
  refine errSub_bind (errSub_pyGet _ _ _) fun a9 => ?_
  refine errSub_bind (errSub_pyGet _ _ _) fun a10 => ?_
  refine errSub_bind (errSub_pyGet _ _ _) fun a11 => ?_
  exact errSub_pure _ _

theorem loopMachines_err : ∀ (items : List Json) (acc : List MachineRec) (e : PyErr),
    (loopMachines items acc).2 = some e → e ≠ PyErr.indexError
  | [], acc, e => by simp [loopMachines]
  | j :: rest, acc, e => by
      intro h
      unfold loopMachines at h
      cases hm : mkMachine j with
      | ok m =>
          simp only [hm] at h
          exact loopMachines_err rest (acc ++ [m]) e h
      | error e' =>
          simp only [hm, Option.some.injEq] at h
          exact h ▸ errSub_mkMachine j e' hm

theorem errSub_machinesChain (data : Json) :
    ErrSub (machinesChain data) (· ≠ PyErr.indexError) := by
  unfold machinesChain
  refine errSub_bind (errSub_pyGet _ _ _) fun a1 => ?_
  refine errSub_bind (errSub_pyGet _ _ _) fun a2 => ?_
  refine errSub_bind (errSub_pyGet _ _ _) fun a3 => ?_
  exact errSub_pyGet _ _ _

theorem getMachinesRaw_err (data : Json) (e : PyErr) :
    (getMachinesRaw data).2 = some e → e ≠ PyErr.indexError := by
  intro h
  unfold getMachinesRaw at h
  cases hc : machinesChain data with
  | error e' =>
      simp only [hc, Option.some.injEq] at h
      exact h ▸ errSub_machinesChain data e' hc
  | ok md =>
      simp only [hc] at h
      cases hi : md.pyIter with
      | error e' =>
          simp only [hi, Option.some.injEq] at h
          exact h ▸ errSub_pyIter md e' hi
      | ok items =>
          simp only [hi] at h
          exact loopMachines_err items [] e h

/-- C4 counterexample: on data that is a truthy non-dict JSON value (the
number 1), both `get_cats` and `get_machines` raise `AttributeError`
(`.get` on an `int`), which `except (KeyError, TypeError)` does not catch,
so the exception propagates instead of an empty list being returned. -/
theorem status_parsers_attribute_error_cex :
    getCats (Json.num 1) = Except.error PyErr.attributeError ∧
    getMachines (Json.num 1) = Except.error PyErr.attributeError ∧
    ¬(∃ l, getCats (Json.num 1) = Except.ok l) ∧
    ¬(∃ l, getMachines (Json.num 1) = Except.ok l) := by
  refine ⟨rfl, rfl, ?_, ?_⟩ <;> rintro ⟨l, h⟩ <;> exact nomatch h

/-- C4 amended: `get_cats` and `get_machines` return a list (empty when the
coordinator data is falsy) and catch `KeyError`/`TypeError`, but on data
where a `.get` lands on a truthy non-dict value an uncaught
`AttributeError` propagates; `AttributeError` is the only exception that
can escape. -/
theorem status_parsers_defensive_spec :
    ∀ data : Json,
      (data.truthy = false → getCats data = Except.ok [] ∧ getMachines data = Except.ok []) ∧
      ((∃ l, getCats data = Except.ok l) ∨
        getCats data = Except.error PyErr.attributeError) ∧
      ((∃ l, getMachines data = Except.ok l) ∨
        getMachines data = Except.error PyErr.attributeError) := by
  intro data
  refine ⟨fun h => by simp [getCats, getMachines, h], ?_, ?_⟩
  · by_cases ht : data.truthy = true
    · unfold getCats
      rw [if_pos ht]
      cases hr : getCatsRaw data with
      | mk cats oe =>
          cases oe with
          | none => exact Or.inl ⟨cats, rfl⟩
          | some e =>
              have hne := getCatsRaw_err data e (by rw [hr])
              cases e with
              | keyError => exact Or.inl ⟨cats, rfl⟩
              | typeError => exact Or.inl ⟨cats, rfl⟩
              | indexError => exact absurd rfl hne
              | attributeError => exact Or.inr rfl
    · simp only [Bool.not_eq_true] at ht
      exact Or.inl ⟨[], by simp [getCats, ht]⟩
  · by_cases ht : data.truthy = true
    · unfold getMachines
      rw [if_pos ht]
      cases hr : getMachinesRaw data with
      | mk ms oe =>
          cases oe with
          | none => exact Or.inl ⟨ms, rfl⟩
          | some e =>
              have hne := getMachinesRaw_err data e (by rw [hr])
              cases e with
              | keyError => exact Or.inl ⟨ms, rfl⟩
              | typeError => exact Or.inl ⟨ms, rfl⟩
              | indexError => exact absurd rfl hne
              | attributeError => exact Or.inr rfl
    · simp only [Bool.not_eq_true] at ht
      exact Or.inl ⟨[], by simp [getMachines, ht]⟩

theorem status_parsers_defensive_spec_witness :
    getCats Json.null = Except.ok [] ∧ getMachines Json.null = Except.ok [] :=
  (status_parsers_defensive_spec Json.null).1 rfl

theorem extractWeightBody_mkWeightResp (ws : List Json) :
    extractWeightBody (mkWeightResp ws) =
      (if (Json.jarr ws).truthy then
        ((Json.jarr ws).pyLast) >>= (fun latest =>
          (latest.pyGet "mean" Json.null) >>= (fun g =>
            match g with
            | Json.null => pure none
            | g => (g.pyMulConst gramsToPounds) >>= (fun p => pure (some (round2 p)))))
      else pure none) := rfl

/-- C6 counterexample: `_extract_current_weight` on a malformed response
that is a bare number raises `AttributeError` (`.get` on an `int`), which
`except (KeyError, TypeError, IndexError)` does not catch, instead of
returning `None`. -/
theorem extract_weight_malformed_cex :
    extractCurrentWeight (Json.num 5) = Except.error PyErr.attributeError ∧
    extractCurrentWeight (Json.num 5) ≠ Except.ok none := by
  refine ⟨rfl, ?_⟩
  intro h
  exact nomatch h

/-- C6 amended: on responses of the expected nested-dict shape,
`_extract_current_weight` returns `mean * 0.00220462` rounded to two
decimals when the weight array is non-empty and its last entry has a
non-`None` numeric `mean`, and `None` when the array is empty or the mean
is missing or `None`; but on a malformed structure a `.get` on a non-dict
raises an uncaught `AttributeError` (the only exception that can escape)
rather than returning `None`. -/
theorem extract_current_weight_spec :
    ∀ (ws : List Json) (kvs : JsonObj) (m : ℚ) (resp : Json),
      extractCurrentWeight (mkWeightResp []) = Except.ok none ∧
      (ws.getLast? = some (Json.obj kvs) →
        (kvs.find "mean" = some (Json.num m) →
          extractCurrentWeight (mkWeightResp ws) =
            Except.ok (some (round2 (m * gramsToPounds)))) ∧
        ((kvs.find "mean").getD Json.null = Json.null →
          extractCurrentWeight (mkWeightResp ws) = Except.ok none)) ∧
      ((∃ v, extractCurrentWeight resp = Except.ok v) ∨
        extractCurrentWeight resp = Except.error PyErr.attributeError) := by
  intro ws kvs m resp
  refine ⟨rfl, ?_, ?_⟩
  · intro hlast
    have hne : ws ≠ [] := by
      intro h
      rw [h] at hlast
      exact nomatch hlast
    have htr : (Json.jarr ws).truthy = true := by
      cases ws with
      | nil => exact absurd rfl hne
      | cons a ws' => rfl
    have hpl : (Json.jarr ws).pyLast = Except.ok (Json.obj kvs) := by
      simp [Json.pyLast, Json.jarr, JsonList.toList_ofList, hlast]
    constructor
    · intro hmean
      unfold extractCurrentWeight
      rw [extractWeightBody_mkWeightResp, if_pos htr, hpl]
      simp [Json.pyGet, hmean, Json.pyMulConst, bind, Except.bind, pure, Except.pure]
    · intro hnull
      unfold extractCurrentWeight
      rw [extractWeightBody_mkWeightResp, if_pos htr, hpl]
      simp [Json.pyGet, hnull, bind, Except.bind, pure, Except.pure]
  · cases hb : extractWeightBody resp with
    | ok v => exact Or.inl ⟨v, by simp [extractCurrentWeight, hb]⟩
    | error e =>
        cases e with
        | keyError =>
            exact Or.inl ⟨none, by simp [extractCurrentWeight, hb, PyErr.caughtKTI]⟩
        | typeError =>
            exact Or.inl ⟨none, by simp [extractCurrentWeight, hb, PyErr.caughtKTI]⟩
        | indexError =>
            exact Or.inl ⟨none, by simp [extractCurrentWeight, hb, PyErr.caughtKTI]⟩
        | attributeError =>
            exact Or.inr (by simp [extractCurrentWeight, hb, PyErr.caughtKTI])

theorem extract_current_weight_spec_witness :
    extractCurrentWeight (mkWeightResp [Json.jobj [("mean", Json.num 1000)]]) =
      Except.ok (some (round2 (1000 * gramsToPounds))) :=
  ((extract_current_weight_spec [Json.jobj [("mean", Json.num 1000)]]
      (JsonObj.ofList [("mean", Json.num 1000)]) 1000 Json.null).2.1 rfl).1 rfl

theorem bump_countSum : ∀ (counts : List (Json × Nat)) (k : Json),
    countSum (bump counts k) = countSum counts + 1
  | [], k => by simp [bump, countSum]
  | (k', v) :: rest, k => by
      by_cases hb : k.beq k' = true
      · simp only [bump, hb, if_true, countSum]
        omega
      · simp only [bump, hb, if_false, countSum, bump_countSum rest k]
        omega

theorem processEvents_ok : ∀ (evs : List Json) (acc : List PEvent)
    (counts : List (Json × Nat)) (l : List PEvent) (c : List (Json × Nat)),
    processEvents evs acc counts = Except.ok (l, c) →
    l = acc ++ evs.filterMap processedOf ∧
    countSum c = countSum counts + (evs.filterMap processedOf).length
  | [], acc, counts, l, c => by
      intro H
      simp only [processEvents, Except.ok.injEq, Prod.mk.injEq] at H
      obtain ⟨h1, h2⟩ := H
      subst h1; subst h2
      simp [List.filterMap]
  | ev :: rest, acc, counts, l, c => by
      intro H
      simp only [processEvents] at H
      cases hcls : ev.pyGet "normalisedClassification" (Json.obj .nil) with
      | error e => rw [hcls] at H; simp [bind, Except.bind] at H
      | ok cls =>
      rw [hcls] at H
      simp only [bind, Except.bind] at H
      cases hisc : cls.pyGet "isCat" Json.null with
      | error e => rw [hisc] at H; simp at H
      | ok isCat =>
      rw [hisc] at H
      simp only at H
      by_cases hct : isCat.truthy = true
      · rw [if_pos hct] at H
        cases hie : cls.pyGet "isElimination" Json.null with
        | error e => rw [hie] at H; simp at H
        | ok isElim =>
        rw [hie] at H
        simp only at H
        by_cases het : isElim.truthy = true
        · rw [if_pos het] at H
          cases hety : cls.pyGet "elimType" (Json.str "unknown") with
          | error e => rw [hety] at H; simp at H
          | ok elimType =>
          rw [hety] at H
          simp only at H
          cases hci : cls.pyGet "cat" (Json.obj .nil) with
          | error e => rw [hci] at H; simp at H
          | ok catInfo =>
          rw [hci] at H
          simp only at H
          cases hst : ev.pyGet "startTime" Json.null with
          | error e => rw [hst] at H; simp at H
          | ok startTime =>
          rw [hst] at H
          simp only at H
          cases hcid : catInfo.pyGet "id" Json.null with
          | error e => rw [hcid] at H; simp at H
          | ok catId =>
          rw [hcid] at H
          simp only at H
          have IH := processEvents_ok rest (acc ++ [⟨startTime, elimType, catId⟩])
            (bump counts elimType) l c H
          have hpo : processedOf ev = some ⟨startTime, elimType, catId⟩ := by
            simp [processedOf, hcls, hisc, hct, hie, het, hety, hci, hst, hcid]
          rw [List.filterMap_cons, hpo]
          refine ⟨by rw [IH.1]; simp, ?_⟩
          rw [IH.2, bump_countSum]
          simp only [List.length_cons]
          omega
        · rw [if_neg het] at H
          have IH := processEvents_ok rest acc counts l c H
          have hpo : processedOf ev = none := by
            simp [processedOf, hcls, hisc, hct, hie, het]
          rw [List.filterMap_cons, hpo]
          exact IH
      · rw [if_neg hct] at H
        have IH := processEvents_ok rest acc counts l c H
        have hpo : processedOf ev = none := by
          simp [processedOf, hcls, hisc, hct]
        rw [List.filterMap_cons, hpo]
        exact IH

theorem mkMachine_ok : ∀ (j : Json) (m : MachineRec), mkMachine j = Except.ok m →
    m.recent_event_count = m.recent_events.length ∧
    countSum m.event_counts = m.recent_event_count ∧
    m.most_recent_event = m.recent_events.head? ∧
    (m.most_recent_event = none →
      m.last_event_time = Json.null ∧ m.last_event_type = Json.null ∧
      m.last_event_cat_id = Json.null) ∧
    ∃ evs, machineElimEvents j = Except.ok evs ∧
      m.recent_events = evs.filterMap processedOf := by
  intro j m H
  cases j with
  | null => simp [mkMachine, Json.pyGet, bind, Except.bind] at H
  | bool b => simp [mkMachine, Json.pyGet, bind, Except.bind] at H
  | num q => simp [mkMachine, Json.pyGet, bind, Except.bind] at H
  | str s => simp [mkMachine, Json.pyGet, bind, Except.bind] at H
  | arr xs => simp [mkMachine, Json.pyGet, bind, Except.bind] at H
  | obj kvs =>
      simp only [mkMachine, Json.pyGet, bind, Except.bind] at H
      cases hit : ((kvs.find "eliminationEvents").getD (Json.jarr [])).pyIter with
      | error e => rw [hit] at H; simp at H
      | ok items =>
      rw [hit] at H
      simp only at H
      cases hpe : processEvents items [] initCounts with
      | error e => rw [hpe] at H; simp at H
      | ok pc =>
      obtain ⟨processed, counts⟩ := pc
      rw [hpe] at H
      simp only [pure, Except.pure, Except.ok.injEq] at H
      have hspec := processEvents_ok items [] initCounts processed counts hpe
      have hname : countSum initCounts = 0 := rfl
      subst H
      refine ⟨rfl, ?_, rfl, ?_, ⟨items, ?_, ?_⟩⟩
      · rw [hspec.2, hname, hspec.1]
        simp
      · intro hnone
        simp only at hnone
        simp [hnone]
      · simp [machineElimEvents, Json.pyGet, bind, Except.bind, hit]
      · simp only
        rw [hspec.1]
        simp

theorem loopMachines_mem : ∀ (items : List Json) (acc : List MachineRec),
    ∀ m ∈ (loopMachines items acc).1, m ∈ acc ∨ ∃ j, mkMachine j = Except.ok m
  | [], acc => by
      intro m hm
      exact Or.inl (by simpa [loopMachines] using hm)
  | j :: rest, acc => by
      intro m hm
      unfold loopMachines at hm
      cases hmk : mkMachine j with
      | ok mj =>
          simp only [hmk] at hm
          rcases loopMachines_mem rest (acc ++ [mj]) m hm with hin | hex
          · rcases List.mem_append.mp hin with h | h
            · exact Or.inl h
            · simp only [List.mem_singleton] at h
              exact Or.inr ⟨j, h ▸ hmk⟩
          · exact Or.inr hex
      | error e =>
          simp only [hmk] at hm
          exact Or.inl hm

theorem getMachinesRaw_mem (data : Json) (m : MachineRec) :
    m ∈ (getMachinesRaw data).1 → ∃ j, mkMachine j = Except.ok m := by
  intro hm
  unfold getMachinesRaw at hm
  cases hc : machinesChain data with
  | error e => simp [hc] at hm
  | ok md =>
      simp only [hc] at hm
      cases hi : md.pyIter with
      | error e => simp [hi] at hm
      | ok items =>
          simp only [hi] at hm
          rcases loopMachines_mem items [] m hm with h | h
          · simp at h
          · exact h

/-- C8: every machine dict returned by `get_machines` satisfies:
`recent_event_count` is the length of `recent_events`; the values of
`event_counts` sum to `recent_event_count`; `most_recent_event` is the
first processed event (`None` when there are none, and then
`last_event_time`, `last_event_type` and `last_event_cat_id` are `None`
too); and `recent_events` is exactly the machine's `eliminationEvents`
filtered to those whose `normalisedClassification` has truthy `isCat` and
`isElimination` (`processedOf`), in the API-supplied order. -/
theorem get_machines_event_invariants :
    ∀ (data : Json) (ms : List MachineRec), getMachines data = Except.ok ms →
      ∀ m ∈ ms,
        m.recent_event_count = m.recent_events.length ∧
        countSum m.event_counts = m.recent_event_count ∧
        m.most_recent_event = m.recent_events.head? ∧
        (m.most_recent_event = none →
          m.last_event_time = Json.null ∧ m.last_event_type = Json.null ∧
          m.last_event_cat_id = Json.null) ∧
        ∃ machine evs, mkMachine machine = Except.ok m ∧
          machineElimEvents machine = Except.ok evs ∧
          m.recent_events = evs.filterMap processedOf := by
  intro data ms H m hm
  have key : ∃ j, mkMachine j = Except.ok m := by
    unfold getMachines at H
    by_cases ht : data.truthy = true
    · rw [if_pos ht] at H
      cases hr : getMachinesRaw data with
      | mk ms' oe =>
          rw [hr] at H
          cases oe with
          | none =>
              simp only [Except.ok.injEq] at H
              exact getMachinesRaw_mem data m (by rw [hr]; exact H ▸ hm)
          | some e =>
              by_cases hcg : e.caughtKT = true
              · simp only [hcg, if_true, Except.ok.injEq] at H
                exact getMachinesRaw_mem data m (by rw [hr]; exact H ▸ hm)
              · simp only [hcg, if_false] at H
                exact absurd H (by simp)
    · rw [if_neg ht] at H
      simp only [Except.ok.injEq] at H
      rw [← H] at hm
      simp at hm
  obtain ⟨j, hj⟩ := key
  have inv := mkMachine_ok j m hj
  obtain ⟨evs, hevs, hfm⟩ := inv.2.2.2.2
  exact ⟨inv.1, inv.2.1, inv.2.2.1, inv.2.2.2.1, j, evs, hj, hevs, hfm⟩

theorem get_machines_event_invariants_witness :
    sampleMachine.recent_event_count = sampleMachine.recent_events.length ∧
    countSum sampleMachine.event_counts = sampleMachine.recent_event_count ∧
    sampleMachine.most_recent_event = sampleMachine.recent_events.head? ∧
    (sampleMachine.most_recent_event = none →
      sampleMachine.last_event_time = Json.null ∧
      sampleMachine.last_event_type = Json.null ∧
      sampleMachine.last_event_cat_id = Json.null) ∧
    ∃ machine evs, mkMachine machine = Except.ok sampleMachine ∧
      machineElimEvents machine = Except.ok evs ∧
      sampleMachine.recent_events = evs.filterMap processedOf :=
  get_machines_event_invariants sampleStatusData [sampleMachine] rfl sampleMachine
    (List.mem_singleton_self sampleMachine)

theorem dlookup_dinsert_self : ∀ (wd : Cache) (k : Json) (v : WeightEntry),
    dlookup (dinsert wd k v) k = some v
  | [], k, v => by simp [dinsert, dlookup, Json.beqRefl]
  | (k0, v0) :: rest, k, v => by
      by_cases hb : k.beq k0 = true
      · simp [dinsert, dlookup, hb]
      · simp only [Bool.not_eq_true] at hb
        simp [dinsert, dlookup, hb, dlookup_dinsert_self rest k v]

theorem dlookup_dinsert_ne : ∀ (wd : Cache) (k k' : Json) (v : WeightEntry),
    k.beq k' = false → dlookup (dinsert wd k' v) k = dlookup wd k
  | [], k, k', v => by
      intro hne
      simp [dinsert, dlookup, hne]
  | (k0, v0) :: rest, k, k', v => by
      intro hne
      by_cases hb : k'.beq k0 = true
      · have : k' = k0 := Json.beqSound hb
        subst this
        simp [dinsert, dlookup, hne, hb]
      · simp only [Bool.not_eq_true] at hb
        by_cases hk : k.beq k0 = true
        · simp [dinsert, dlookup, hb, hk]
        · simp only [Bool.not_eq_true] at hk
          simp [dinsert, dlookup, hb, hk, dlookup_dinsert_ne rest k k' v hne]

theorem weightLoop_preserve (fetch : Nat → Except Unit Json) (prev : Cache) (today : Int) :
    ∀ (cs : List WCat) (i : Nat) (wd : Cache) (k : Json),
      (∀ c ∈ cs, k.beq c.id = false) →
      dlookup (weightLoop fetch prev today cs i wd).1 k = dlookup wd k
  | [], i, wd, k => by
      intro _
      rfl
  | c :: rest, i, wd, k => by
      intro hall
      have hc : k.beq c.id = false := hall c (List.mem_cons_self c rest)
      have hrest : ∀ c' ∈ rest, k.beq c'.id = false :=
        fun c' hm => hall c' (List.mem_cons_of_mem c hm)
      simp only [weightLoop]
      rw [weightLoop_preserve fetch prev today rest (i + 1) _ k hrest]
      cases hf : fetch i with
      | ok resp =>
          simp only [hf]
          cases hex : extractCurrentWeight resp with
          | ok cw =>
              simp only [hex]
              exact dlookup_dinsert_ne _ _ _ _ hc
          | error e =>
              simp only [hex]
              cases hl : dlookup prev c.id with
              | some e' =>
                  simp only [hl]
                  exact dlookup_dinsert_ne _ _ _ _ hc
              | none => simp only [hl]
      | error u =>
          simp only [hf]
          cases hl : dlookup prev c.id with
          | some e' =>
              simp only [hl]
              exact dlookup_dinsert_ne _ _ _ _ hc
          | none => simp only [hl]

theorem weightLoop_carry (fetch : Nat → Except Unit Json) (prev : Cache) (today : Int)
    (c : WCat) (rest : List WCat) (i : Nat) (wd : Cache) (e : WeightEntry)
    (hf : fetch i = Except.error ()) (hp : dlookup prev c.id = some e)
    (hrest : ∀ c' ∈ rest, (c.id).beq c'.id = false) :
    dlookup (weightLoop fetch prev today (c :: rest) i wd).1 c.id = some e := by
  simp only [weightLoop, hf, hp]
  rw [weightLoop_preserve fetch prev today rest (i + 1) _ c.id hrest]
  exact dlookup_dinsert_self wd c.id e

theorem weightLoop_append (fetch : Nat → Except Unit Json) (prev : Cache) (today : Int) :
    ∀ (xs ys : List WCat) (i : Nat) (wd : Cache),
      (weightLoop fetch prev today (xs ++ ys) i wd).1 =
        (weightLoop fetch prev today ys (i + xs.length)
          (weightLoop fetch prev today xs i wd).1).1
  | [], ys, i, wd => by simp [weightLoop]
  | x :: xs, ys, i, wd => by
      show (weightLoop fetch prev today (x :: (xs ++ ys)) i wd).1 =
        (weightLoop fetch prev today ys (i + (x :: xs).length)
          (weightLoop fetch prev today (x :: xs) i wd).1).1
      simp only [weightLoop, List.length_cons]
      rw [weightLoop_append fetch prev today xs ys (i + 1) _]
      rw [(by omega : i + 1 + xs.length = i + (xs.length + 1))]

/-- C2 counterexample: with two cats sharing id `"A"` (as `get_cats`
returns when the status response lists a cat twice), the first cat's
`weight` fetch raising and the second succeeding, the previous cache entry
for `"A"` is first carried over and then overwritten, so it is not in the
new result even though the first cat's fetch raised and its id was cached. -/
theorem weight_cache_carryover_cex :
    dlookup prevCacheCex (Json.str "A") = some staleEntry ∧
    fetchCex 0 = Except.error () ∧
    dlookup (weightUpdate prevCacheCex (some catsCex) fetchCex 0).1 (Json.str "A") ≠
      some staleEntry := by
  refine ⟨rfl, rfl, ?_⟩
  intro h
  have := congrArg (Option.map WeightEntry.last_updated) h
  exact absurd this (by decide)

/-- C2 amended: when the status coordinator is unavailable or reports no
cats, `_async_update_data` returns the previous cache unchanged; and for a
cat whose weight fetch raises, a previous cache entry for its id is carried
over into the new result, provided no later cat in the list shares that id
(a later success for the same id overwrites the carried entry, as the
counterexample shows). -/
theorem weight_cache_carryover_spec :
    ∀ (prev : Cache) (fetch : Nat → Except Unit Json) (today : Int)
      (l1 l2 : List WCat) (c : WCat) (e : WeightEntry),
      (weightUpdate prev none fetch today).1 = prev ∧
      (weightUpdate prev (some []) fetch today).1 = prev ∧
      (fetch l1.length = Except.error () →
        dlookup prev c.id = some e →
        (∀ c' ∈ l2, (c.id).beq c'.id = false) →
        dlookup (weightUpdate prev (some (l1 ++ c :: l2)) fetch today).1 c.id = some e) := by
  intro prev fetch today l1 l2 c e
  refine ⟨rfl, rfl, ?_⟩
  intro hf hp hl2
  have hne : (l1 ++ c :: l2).isEmpty = false := by
    cases l1 <;> simp
  simp only [weightUpdate, hne, Bool.false_eq_true, if_false]
  rw [weightLoop_append fetch prev today l1 (c :: l2) 0 []]
  rw [weightLoop_carry fetch prev today c l2 (0 + l1.length) _ e (by simpa using hf) hp hl2]

theorem weight_cache_carryover_spec_witness :
    dlookup (weightUpdate [(Json.str "A", staleEntry)]
      (some [⟨Json.str "A", Json.str "Felix"⟩]) (fun _ => Except.error ()) 0).1
      (Json.str "A") = some staleEntry :=
  (weight_cache_carryover_spec [(Json.str "A", staleEntry)] (fun _ => Except.error ()) 0
    [] [] ⟨Json.str "A", Json.str "Felix"⟩ staleEntry).2.2 rfl rfl (by simp)
